import Mathlib

/-!
Verification of the voice-guided git automation program (`main.py`).

The development shallowly embeds the pure control logic of the program:
the transcript-to-command parser `parse_git_command`, the git helpers
`is_git_repo`, `current_branch`, `run_cmd`'s shell dispatch,
`execute_git_sequence`, `push_current_branch`, the per-iteration body of
the `main` session loop, the two-destination logger `append_log`, and the
voice-authentication decision `authenticate_via_voice`.

External effects (subprocess results, the repository check, the branch
query, audio) are passed in as explicit parameters, so every definition
is executable on concrete inputs.
-/

/-- The single-quote character (used by the quote class of the commit
regex); written via its code point. -/
def squote : Char := Char.ofNat 39

/-- A character accepted by the quote class of the pattern
`commit (?:message )?[quote](.+?)[quote]` : either a double or a single
quote. -/
def isQuote (c : Char) : Bool := c == '"' || c == squote

/-- A character of the class used for branch names in the patterns,
ASCII word characters plus hyphen and underscore. -/
def isWordChar (c : Char) : Bool := c.isAlphanum || c == '_' || c == '-'

/-- Python `pat in s` substring test on character lists. -/
def hasSub : List Char → List Char → Bool
  | [], pat => pat.isEmpty
  | s@(_ :: t), pat => pat.isPrefixOf s || hasSub t pat

/-- Python `pat in s` substring test on strings. -/
def hasSubStr (s pat : String) : Bool := hasSub s.data pat.data

/-- Leftmost regex search: try the matcher at every start position of
the text, earliest successful position wins (the semantics of
`re.search`). -/
def reSearch {α : Type} (f : List Char → Option α) : List Char → Option α
  | [] => f []
  | s@(_ :: t) =>
    match f s with
    | some m => some m
    | none => reSearch f t

/-- The non-greedy tail of the commit-message pattern: after the opening
quote and a first content character already consumed into `acc`, scan for
the nearest closing quote; `.` does not cross a newline.  Returns the
captured content and the remainder after the closing quote. -/
def closeQuote : List Char → List Char → Option (List Char × List Char)
  | _, [] => none
  | acc, c :: rest =>
    if isQuote c then some (acc.reverse, rest)
    else if c == '\n' then none
    else closeQuote (c :: acc) rest

/-- Match `[quote](.+?)[quote]` at the head of the text: an opening quote,
at least one non-newline content character, then the nearest closing
quote; returns the captured content. -/
def quoteCapture : List Char → Option (List Char)
  | [] => none
  | q :: rest =>
    if isQuote q then
      match rest with
      | [] => none
      | d :: ds => if d == '\n' then none else (closeQuote [d] ds).map Prod.fst
    else none

/-- Match `commit (?:message )?[quote](.+?)[quote]` at the head of the
text.  The optional group is greedy; since a text starting with
`message ` cannot also start with a quote, the backtracked branch is the
plain `quoteCapture` of the same position. -/
def commitQuoteAt (s : List Char) : Option (List Char) :=
  if ("commit ".data).isPrefixOf s then
    let s1 := s.drop 7
    if ("message ".data).isPrefixOf s1 then
      match quoteCapture (s1.drop 8) with
      | some m => some m
      | none => quoteCapture s1
    else quoteCapture s1
  else none

/-- `re.search` of the quoted-commit pattern over the whole text. -/
def commitQuoteSearch (s : List Char) : Option (List Char) :=
  reSearch commitQuoteAt s

/-- Match `create branch ([word-]+)` at the head of the text. -/
def createBranchAt (s : List Char) : Option (List Char) :=
  if ("create branch ".data).isPrefixOf s then
    let w := (s.drop 14).takeWhile isWordChar
    if w.isEmpty then none else some w
  else none

/-- The `(?:branch )?([word-]+)` tail of the switch/checkout pattern:
the optional `branch ` is tried greedily; if no name follows it, the
engine backtracks and the letters of `branch` themselves are captured. -/
def branchNameAfter (rest : List Char) : Option (List Char) :=
  if ("branch ".data).isPrefixOf rest then
    let w := (rest.drop 7).takeWhile isWordChar
    if w.isEmpty then
      let w2 := rest.takeWhile isWordChar
      if w2.isEmpty then none else some w2
    else some w
  else
    let w := rest.takeWhile isWordChar
    if w.isEmpty then none else some w

/-- Match `(?:switch to|checkout) (?:branch )?([word-]+)` at the head of
the text (the two alternatives cannot both apply at one position). -/
def switchCheckoutAt (s : List Char) : Option (List Char) :=
  if ("switch to ".data).isPrefixOf s then branchNameAfter (s.drop 10)
  else if ("checkout ".data).isPrefixOf s then branchNameAfter (s.drop 9)
  else none

/-- The rules of `parse_git_command` that follow the quoted-commit rule,
in source order: bare commit, push, pull, status, create-branch (whose
failed extraction returns the Unknown sentinel directly),
switch/checkout (whose failed extraction falls through to the undo
rule), undo, Unknown. -/
def parseRest (t : List Char) : List String :=
  if hasSub t ("commit".data) then
    ["git add -A", "git commit -m \"voice commit\""]
  else if hasSub t ("push".data) then ["git push"]
  else if hasSub t ("pull".data) then ["git pull"]
  else if hasSub t ("status".data) then ["git status"]
  else if hasSub t ("create branch".data) then
    match reSearch createBranchAt t with
    | some bn => ["git branch " ++ bn.asString, "git checkout " ++ bn.asString]
    | none => ["Unknown command"]
  else
    let afterSwitch : Option (List String) :=
      if hasSub t ("switch to".data) || hasSub t ("checkout".data) then
        (reSearch switchCheckoutAt t).map (fun b => ["git checkout " ++ b.asString])
      else none
    match afterSwitch with
    | some r => r
    | none =>
      if hasSub t ("undo last commit".data) || hasSub t ("revert last commit".data)
          || hasSub t ("undo".data) then
        ["git reset --soft HEAD~1"]
      else ["Unknown command"]

/-- The body of `parse_git_command` on the lower-cased character list:
the quoted-commit rule first (guarded, as in the source, by both the
regex match and the `commit` substring test), then the remaining rules. -/
def parse_git_core (t : List Char) : List String :=
  match commitQuoteSearch t with
  | some msg =>
    if hasSub t ("commit".data) then
      ["git add -A", "git commit -m \"" ++ msg.asString ++ "\""]
    else parseRest t
  | none => parseRest t

/-- `parse_git_command(text)` : lower-case the transcript, then apply the
ordered rules; always returns a non-empty list of command strings, with
`["Unknown command"]` as the no-match sentinel. -/
def parse_git_command (text : String) : List String :=
  parse_git_core (text.data.map Char.toLower)

example : parse_git_command "commit message \"initial work\""
    = ["git add -A", "git commit -m \"initial work\""] := by decide

example : parse_git_command "commit" = ["git add -A", "git commit -m \"voice commit\""] := by
  decide

example : parse_git_command "create branch feature-x"
    = ["git branch feature-x", "git checkout feature-x"] := by decide

example : parse_git_command "switch to main" = ["git checkout main"] := by decide

example : parse_git_command "hello there" = ["Unknown command"] := by decide

/-- A command as handed to `run_cmd`: either a plain string (Python
`str`) or an argument vector (Python `list`). -/
inductive Cmd where
  | sh : String → Cmd
  | argv : List String → Cmd
deriving DecidableEq

/-- `run_cmd`'s dispatch: `shell = isinstance(cmd, str)` — a string
command is handed to a shell, an argument vector is not. -/
def run_cmd_shell (c : Cmd) : Bool :=
  match c with
  | Cmd.sh _ => true
  | Cmd.argv _ => false

/-- Python `s.strip()` : drop leading and trailing whitespace. -/
def pyStrip (s : String) : String :=
  ((s.data.dropWhile Char.isWhitespace).reverse.dropWhile Char.isWhitespace).reverse.asString

/-- Python `sep.join(xs)`. -/
def joinSep (sep : String) : List String → String
  | [] => ""
  | [x] => x
  | x :: xs => x ++ sep ++ joinSep sep xs

/-- `is_git_repo()` : true iff `git rev-parse --is-inside-work-tree`
exits with code zero; the exit code is passed in. -/
def is_git_repo (revParseRc : Int) : Bool := revParseRc == 0

/-- `current_branch()` : the trimmed stdout of
`git rev-parse --abbrev-ref HEAD` when it exits zero, the literal
`"main"` otherwise; the subprocess outcome is passed in. -/
def current_branch (rc : Int) (stdout : String) : String :=
  if rc == 0 then pyStrip stdout else "main"

/-- `c.split()[0]` on the command strings built by the parser (single
spaces, non-empty first token): the characters before the first space. -/
def firstWord (s : String) : String := (s.data.takeWhile (fun c => c ≠ ' ')).asString

/-- The value `execute_git_sequence` returns: Python `None` when the
repository check fails, `False` on a failing step, `True` on full
success. -/
inductive ExecResult where
  | notRepo : ExecResult
  | failed : ExecResult
  | success : ExecResult
deriving DecidableEq

/-- Observable trace of `execute_git_sequence`: its return value, the
commands actually handed to `run_cmd` in order, the lines appended via
`append_log`, and the spoken messages. -/
structure ExecTrace where
  result : ExecResult
  executed : List Cmd
  logs : List String
  spoken : List String
deriving DecidableEq

/-- The `for c in cmds` loop of `execute_git_sequence`: run each step
via `run_cmd` (as a shell string); on the first nonzero exit code speak,
log the failure and return `False`; otherwise continue; return `True`
after the loop.  `exec` gives each step's exit code and combined
output. -/
def execute_go (exec : String → Int × String) : List String → ExecTrace
  | [] => ⟨ExecResult.success, [], [], []⟩
  | c :: rest =>
    let r := exec c
    if r.fst == 0 then
      let t := execute_go exec rest
      ⟨t.result, Cmd.sh c :: t.executed, t.logs, t.spoken⟩
    else
      ⟨ExecResult.failed, [Cmd.sh c],
       ["FAILED: " ++ c ++ " -> " ++ r.snd],
       ["Command failed: " ++ firstWord c]⟩

/-- `execute_git_sequence(cmds)` : abort (speaking a notice, running
nothing) when the working directory is not a git repository, otherwise
run the steps in order, fail-fast.  `revParseRc` is the exit code of the
repository check, `exec` the outcome of each step. -/
def execute_git_sequence (revParseRc : Int) (exec : String → Int × String)
    (cmds : List String) : ExecTrace :=
  if is_git_repo revParseRc then execute_go exec cmds
  else
    ⟨ExecResult.notRepo, [], [],
     ["Not a Git repository. Please run \x27git init\x27 or set the correct folder."]⟩

/-- Observable trace of `push_current_branch`: the push invocation
handed to `run_cmd`, the log line, the spoken message, and its boolean
return value. -/
structure PushTrace where
  executed : List Cmd
  logs : List String
  spoken : List String
  successful : Bool
deriving DecidableEq

/-- `push_current_branch()` : resolve the branch at this moment via
`current_branch`, then run the argument vector
`["git", "push", "origin", branch]`; log and speak the outcome.
`branchRc`/`branchOut` are the branch query's result, `pushExec` the
push invocation's result. -/
def push_current_branch (branchRc : Int) (branchOut : String)
    (pushExec : List String → Int × String) : PushTrace :=
  let br := current_branch branchRc branchOut
  let r := pushExec ["git", "push", "origin", br]
  if r.fst == 0 then
    ⟨[Cmd.argv ["git", "push", "origin", br]],
     ["push -> origin/" ++ br], ["Pushed to origin " ++ br], true⟩
  else
    ⟨[Cmd.argv ["git", "push", "origin", br]],
     ["PUSH FAILED -> origin/" ++ br ++ " : " ++ r.snd],
     ["Push failed. Check credentials or remote."], false⟩

/-- The external outcomes one iteration of the `main` loop can observe:
the repository check, each plan step's subprocess result, the branch
query made by `push_current_branch`, the extra push's result, the
`ENABLE_VOICE_AUTH` configuration flag, and the outcome of
`authenticate_via_voice`. -/
structure LoopEnv where
  repoRc : Int
  exec : String → Int × String
  branchRc : Int
  branchOut : String
  pushExec : List String → Int × String
  authEnabled : Bool
  authOk : Bool

/-- Control effect of one loop iteration: keep listening, switch the ASR
mode and keep listening, or leave the loop. -/
inductive LoopEffect where
  | listening : LoopEffect
  | switchMode : String → LoopEffect
  | exited : LoopEffect
deriving DecidableEq

/-- Observable trace of one iteration of the `main` loop. -/
structure LoopResult where
  logs : List String
  executed : List Cmd
  spoken : List String
  effect : LoopEffect
deriving DecidableEq

/-- The spoken exit phrases: `text.strip() in ("exit", "quit", "stop")`. -/
def exit_words : List String := ["exit", "quit", "stop"]

/-- The sensitivity test of the `main` loop:
`any(k in " ".join(cmds) for k in ("commit", "push", "reset", "branch"))`. -/
def sensitive_plan (cmds : List String) : Bool :=
  let joined := joinSep " " cmds
  hasSubStr joined "commit" || hasSubStr joined "push"
    || hasSubStr joined "reset" || hasSubStr joined "branch"

/-- The `cmds[0] == "Unknown command"` test of the `main` loop. -/
def unknown_plan (cmds : List String) : Bool :=
  cmds.head? == some "Unknown command"

/-- One iteration of the body of `main`'s `while True` loop on a
recognized transcript `text`, lines 321–365 of the source: skip empty
text; log the raw transcript; handle mode switches and exit phrases;
parse; announce an unknown command without executing; under
`ENABLE_VOICE_AUTH`, gate sensitive plans behind voice authentication;
otherwise execute the plan, issue the guaranteed push (or the push
suggestion) on success, and append the `EXECUTED:` line regardless of
the execution outcome. -/
def loop_iteration (env : LoopEnv) (text : String) : LoopResult :=
  if text = "" then ⟨[], [], [], LoopEffect.listening⟩
  else if hasSubStr text "switch to offline" then
    ⟨[text], [], ["Switched to offline mode."], LoopEffect.switchMode "offline"⟩
  else if hasSubStr text "switch to online" then
    ⟨[text], [], ["Switched to online mode."], LoopEffect.switchMode "online"⟩
  else if exit_words.contains (pyStrip text) then
    ⟨[text], [], ["Exiting. Goodbye."], LoopEffect.exited⟩
  else
    let cmds := parse_git_command text
    if unknown_plan cmds then
      ⟨[text], [],
       ["Unknown Git command. Try: commit, push, pull, status, create branch, switch to ..."],
       LoopEffect.listening⟩
    else if env.authEnabled && sensitive_plan cmds && !env.authOk then
      ⟨[text, "AUTH FAIL for command: " ++ joinSep " | " cmds], [],
       ["Please authenticate with voice.", "Authentication failed."],
       LoopEffect.listening⟩
    else
      let authSpoken :=
        if env.authEnabled && sensitive_plan cmds then
          ["Please authenticate with voice.", "Authentication passed."]
        else []
      let t := execute_git_sequence env.repoRc env.exec cmds
      let afterPlan : PushTrace :=
        if t.result == ExecResult.success
            && cmds.any (fun c => hasSubStr c "push") then
          push_current_branch env.branchRc env.branchOut env.pushExec
        else if t.result == ExecResult.success
            && cmds.any (fun c => hasSubStr c "commit") then
          ⟨[], [],
           ["Do you want to push? say \x27push\x27 to push now or continue."], true⟩
        else ⟨[], [], [], true⟩
      ⟨[text] ++ t.logs ++ afterPlan.logs
         ++ ["EXECUTED: " ++ joinSep " | " cmds],
       t.executed ++ afterPlan.executed,
       authSpoken ++ ["Executing " ++ joinSep ", " cmds]
         ++ t.spoken ++ afterPlan.spoken,
       LoopEffect.listening⟩

/-- Outcome of one `with open(...) ... write` block of `append_log`. -/
inductive WriteOutcome where
  | ok : WriteOutcome
  | ioError : WriteOutcome
deriving DecidableEq

/-- Which destinations a call of `append_log` wrote, and whether it
raised. -/
structure LogWriteTrace where
  wroteCommands : Bool
  wroteCommandLog : Bool
  raised : Bool
deriving DecidableEq

/-- `append_log` performs its two writes sequentially with no handler:
first `logs/commands.txt` (`w1`), then `command_log.txt` (`w2`); an
I/O error in the first block raises before the second block runs, an
error in the second raises after the first completed. -/
def append_log_effect (w1 w2 : WriteOutcome) : LogWriteTrace :=
  match w1 with
  | WriteOutcome.ioError => ⟨false, false, true⟩
  | WriteOutcome.ok =>
    match w2 with
    | WriteOutcome.ioError => ⟨true, false, true⟩
    | WriteOutcome.ok => ⟨true, true, false⟩

/-- The `try: while True: ...` structure of `main`: each entry is one
iteration of the loop body, `true` meaning the body raised.  A raising
iteration transfers control to the `except` handler outside the loop, so
the loop performs no further iteration; the result is the number of
iterations entered. -/
def main_try_loop : List Bool → Nat
  | [] => 0
  | raises :: rest => if raises then 1 else 1 + main_try_loop rest

/-- Squared Euclidean distance of two feature vectors
(`np.linalg.norm(ref - usr)` squared; the vectors have equal length, 13
MFCC means). -/
def euclidSq (r u : List ℚ) : ℚ :=
  ((r.zip u).map (fun p => (p.fst - p.snd) ^ 2)).sum

/-- `authenticate_via_voice` : unconditional `False` when the reference
sample is absent; otherwise extract both feature vectors (an extraction
error is caught and yields `False`) and succeed iff the Euclidean
distance is below the threshold.  The floating-point comparison
`norm < threshold` is modelled exactly over the rationals by the
equivalent squared comparison (the configured threshold, 55.0, is
positive). -/
def authenticate_via_voice (refExists : Bool)
    (refFeat usrFeat : Option (List ℚ)) (threshold : ℚ) : Bool :=
  if refExists then
    match refFeat, usrFeat with
    | some r, some u => euclidSq r u < threshold * threshold
    | _, _ => false
  else false

example :
    (loop_iteration ⟨0, fun _ => (0, ""), 0, "main\n", fun _ => (0, ""), false, false⟩
        "push").executed
      = [Cmd.sh "git push", Cmd.argv ["git", "push", "origin", "main"]] := by decide

example :
    (loop_iteration ⟨1, fun _ => (0, ""), 0, "main", fun _ => (0, ""), false, false⟩
        "status").logs = ["status", "EXECUTED: git status"] := by decide

/-- The prefix of a plan up to and including its first step satisfying
`p` (the whole plan when no step does). -/
def upToFirstFail (p : String → Bool) : List String → List String
  | [] => []
  | c :: rest => if p c then [c] else c :: upToFirstFail p rest

theorem execute_go_executed (exec : String → Int × String) (cmds : List String) :
    (execute_go exec cmds).executed
      = (upToFirstFail (fun c => (exec c).fst != 0) cmds).map Cmd.sh := by
  induction cmds with
  | nil => rfl
  | cons c rest ih =>
    cases h : (exec c).fst == 0 with
    | false =>
      have hb : ((exec c).fst != 0) = true := by simp [bne, h]
      simp [execute_go, upToFirstFail, h, hb]
    | true =>
      have hb : ((exec c).fst != 0) = false := by simp [bne, h]
      simp [execute_go, upToFirstFail, h, hb, ih]

theorem execute_go_success_iff (exec : String → Int × String) (cmds : List String) :
    (execute_go exec cmds).result = ExecResult.success
      ↔ cmds.all (fun c => (exec c).fst == 0) = true := by
  induction cmds with
  | nil => simp [execute_go]
  | cons c rest ih =>
    simp only [execute_go, List.all_cons]
    cases h : (exec c).fst == 0 with
    | false => simp [h]
    | true => simpa [h] using ih

theorem execute_go_success_executed (exec : String → Int × String) (cmds : List String) :
    (execute_go exec cmds).result = ExecResult.success
      → (execute_go exec cmds).executed = cmds.map Cmd.sh := by
  induction cmds with
  | nil => intro _; rfl
  | cons c rest ih =>
    intro h
    cases hc : (exec c).fst == 0 with
    | false => exact absurd h (by simp [execute_go, hc])
    | true =>
      have h' : (execute_go exec rest).result = ExecResult.success := by
        simpa [execute_go, hc] using h
      simp [execute_go, hc, ih h']

theorem execute_success_executed (rc : Int) (exec : String → Int × String)
    (cmds : List String)
    (h : (execute_git_sequence rc exec cmds).result = ExecResult.success) :
    (execute_git_sequence rc exec cmds).executed = cmds.map Cmd.sh := by
  revert h
  unfold execute_git_sequence
  cases hr : is_git_repo rc with
  | false => intro h; exact absurd h (by simp)
  | true => intro h; exact execute_go_success_executed exec cmds (by simpa using h)

theorem execute_steps_shell (rc : Int) (exec : String → Int × String) (cmds : List String) :
    ∀ c ∈ (execute_git_sequence rc exec cmds).executed, run_cmd_shell c = true := by
  unfold execute_git_sequence
  cases hr : is_git_repo rc with
  | false => simp
  | true =>
    simp only [if_pos rfl]
    induction cmds with
    | nil => simp [execute_go]
    | cons c rest ih =>
      simp only [execute_go]
      cases h : (exec c).fst == 0 with
      | false => simp [run_cmd_shell]
      | true =>
        intro x hx
        rcases List.mem_cons.1 hx with hx | hx
        · simp [hx, run_cmd_shell]
        · exact ih x hx

theorem push_current_branch_executed (a : Int) (b : String)
    (pe : List String → Int × String) :
    (push_current_branch a b pe).executed
      = [Cmd.argv ["git", "push", "origin", current_branch a b]] := by
  simp only [push_current_branch]
  split <;> rfl

/-- C3 (confirmed): execution runs the plan's steps strictly in order
and stops at the first step whose exit status is nonzero — the commands
handed to `run_cmd` are exactly the prefix of the plan up to and
including the first failing step; the run succeeds iff every step exits
zero; and a 3-step plan whose second step fails runs exactly steps 1 and
2, never step 3. -/
theorem execute_failfast (exec : String → Int × String) (cmds : List String) :
    (execute_git_sequence 0 exec cmds).executed
        = (upToFirstFail (fun c => (exec c).fst != 0) cmds).map Cmd.sh
    ∧ ((execute_git_sequence 0 exec cmds).result = ExecResult.success
        ↔ cmds.all (fun c => (exec c).fst == 0) = true)
    ∧ (execute_git_sequence 0
          (fun c => if c == "step two" then (1, "boom") else (0, ""))
          ["step one", "step two", "step three"]).executed
        = [Cmd.sh "step one", Cmd.sh "step two"] := by
  refine ⟨?_, ?_, by decide⟩
  · simpa [execute_git_sequence, is_git_repo] using execute_go_executed exec cmds
  · simpa [execute_git_sequence, is_git_repo] using execute_go_success_iff exec cmds

/-- C5 (confirmed): when the working directory is not a recognized
repository, `execute_git_sequence` aborts before running any step: no
command is handed to `run_cmd`, nothing is logged, and the single
outcome is the not-a-repository one (the spoken notice). -/
theorem execute_outside_repo (rc : Int) (exec : String → Int × String)
    (cmds : List String) (h : is_git_repo rc = false) :
    execute_git_sequence rc exec cmds
      = ⟨ExecResult.notRepo, [], [],
         ["Not a Git repository. Please run \x27git init\x27 or set the correct folder."]⟩ := by
  simp [execute_git_sequence, h]

theorem execute_outside_repo_witness :
    is_git_repo 1 = false
    ∧ execute_git_sequence 1 (fun _ => (0, "")) ["git status"]
        = ⟨ExecResult.notRepo, [], [],
           ["Not a Git repository. Please run \x27git init\x27 or set the correct folder."]⟩ :=
  ⟨by decide, execute_outside_repo 1 (fun _ => (0, "")) ["git status"] (by decide)⟩

/-- C10 (confirmed): when resolving the current branch fails (nonzero
exit of the rev-parse query), `current_branch` returns the string
`"main"`, so `push_current_branch` issues the argument vector
`["git", "push", "origin", "main"]` rather than failing or aborting. -/
theorem current_branch_defaults_main (rc : Int) (out : String)
    (pushExec : List String → Int × String) (h : ¬ rc = 0) :
    current_branch rc out = "main"
    ∧ (push_current_branch rc out pushExec).executed
        = [Cmd.argv ["git", "push", "origin", "main"]] := by
  have hb : current_branch rc out = "main" := by simp [current_branch, h]
  exact ⟨hb, by rw [push_current_branch_executed, hb]⟩

theorem current_branch_defaults_main_witness :
    ¬ (1 : Int) = 0
    ∧ (current_branch 1 "develop" = "main"
        ∧ (push_current_branch 1 "develop" (fun _ => (1, "remote rejected"))).executed
            = [Cmd.argv ["git", "push", "origin", "main"]]) :=
  ⟨by decide, current_branch_defaults_main 1 "develop" (fun _ => (1, "remote rejected"))
    (by decide)⟩

/-- C7 is false on the code: in `append_log` the two destination writes
are sequential with no handler, so when the write to the first
destination (`logs/commands.txt`) fails, the second destination
(`command_log.txt`) — whose own write would succeed — is never written,
and the call raises. -/
theorem log_writes_not_independent :
    (append_log_effect WriteOutcome.ioError WriteOutcome.ok).wroteCommandLog = false
    ∧ (append_log_effect WriteOutcome.ioError WriteOutcome.ok).raised = true := by
  decide

/-- C7 (amended): the two log writes are sequential and coupled — a
failing first write prevents the second and raises, a failing second
write leaves only the first done and raises, only both succeeding
returns normally; and since the iterations of `main`'s `while` loop run
inside one `try` with no per-iteration handler, an iteration that raises
(e.g. from `append_log`) is the last one: the loop never resumes. -/
theorem append_log_sequential_coupling :
    (∀ w2, append_log_effect WriteOutcome.ioError w2
        = ⟨false, false, true⟩)
    ∧ append_log_effect WriteOutcome.ok WriteOutcome.ioError = ⟨true, false, true⟩
    ∧ append_log_effect WriteOutcome.ok WriteOutcome.ok = ⟨true, true, false⟩
    ∧ (∀ rest, main_try_loop (true :: rest) = 1) :=
  ⟨fun w2 => by cases w2 <;> rfl, rfl, rfl, fun _ => rfl⟩

/-- C8 (confirmed): voice authentication returns `false` (not an error)
whenever the reference sample is absent; and when the reference exists
and both feature vectors are extracted, it succeeds iff the Euclidean
distance between them is below the (positive) threshold. -/
theorem authenticate_iff_distance_below (rf uf : Option (List ℚ)) (r u : List ℚ)
    (t : ℚ) (ht : 0 < t) :
    authenticate_via_voice false rf uf t = false
    ∧ (authenticate_via_voice true (some r) (some u) t = true
        ↔ Real.sqrt ((euclidSq r u : ℚ) : ℝ) < (t : ℝ)) := by
  refine ⟨rfl, ?_⟩
  have hd : authenticate_via_voice true (some r) (some u) t = true
      ↔ euclidSq r u < t * t := by
    simp [authenticate_via_voice]
  rw [hd, Real.sqrt_lt' (show (0 : ℝ) < (t : ℝ) by exact_mod_cast ht), sq]
  exact_mod_cast Iff.rfl

theorem authenticate_iff_distance_below_witness :
    (0 : ℚ) < 55
    ∧ (authenticate_via_voice false none none 55 = false
        ∧ (authenticate_via_voice true (some [3]) (some [0]) 55 = true
            ↔ Real.sqrt ((euclidSq [3] [0] : ℚ) : ℝ) < ((55 : ℚ) : ℝ))) :=
  ⟨by norm_num, authenticate_iff_distance_below none none [3] [0] 55 (by norm_num)⟩

/-- C1 is false on the code: `parse_git_command` has no rule that stages
a named file — a transcript naming a specific file to commit (with no
quoted message) falls to the bare-commit rule, which stages all files
(`git add -A`) and uses the default message `"voice commit"`; the
filename appears nowhere in the plan. -/
theorem commit_named_file_ignored :
    parse_git_command "commit file main.py"
        = ["git add -A", "git commit -m \"voice commit\""]
    ∧ hasSubStr (joinSep " | " (parse_git_command "commit file main.py")) "main.py"
        = false := by
  decide

/-- C1 (amended): every transcript that contains `commit` but matches no
quoted message — in particular one naming a specific file — is handled
by the bare-commit rule: the plan stages all files and uses the default
message `"voice commit"`, which does not embed the filename. -/
theorem commit_no_quote_stages_all (text : String)
    (h1 : commitQuoteSearch (text.data.map Char.toLower) = none)
    (h2 : hasSub (text.data.map Char.toLower) ("commit".data) = true) :
    parse_git_command text = ["git add -A", "git commit -m \"voice commit\""] := by
  simp [parse_git_command, parse_git_core, h1, parseRest, h2]

theorem commit_no_quote_stages_all_witness :
    commitQuoteSearch ("commit file main.py".data.map Char.toLower) = none
    ∧ parse_git_command "commit file main.py"
        = ["git add -A", "git commit -m \"voice commit\""] :=
  ⟨by decide, commit_no_quote_stages_all "commit file main.py" (by decide) (by decide)⟩

/-- C4 is false as stated: an input text matching no rule does not yield
an empty plan — `parse_git_command "hello there"` is the one-element
sentinel `["Unknown command"]`, not `[]`. -/
theorem unknown_plan_is_sentinel :
    parse_git_command "hello there" = ["Unknown command"]
    ∧ parse_git_command "hello there" ≠ [] := by
  decide

/-- C4 (amended): an input text matching no rule yields the sentinel
plan `["Unknown command"]` (not an empty plan), and the session loop
executes nothing for it: it logs the raw transcript, speaks the
unknown-command notice, runs no command, and remains listening. -/
theorem unknown_text_executes_nothing (env : LoopEnv) (text : String)
    (h0 : ¬ text = "")
    (h1 : hasSubStr text "switch to offline" = false)
    (h2 : hasSubStr text "switch to online" = false)
    (h3 : exit_words.contains (pyStrip text) = false)
    (h4 : parse_git_command text = ["Unknown command"]) :
    loop_iteration env text
      = ⟨[text], [],
         ["Unknown Git command. Try: commit, push, pull, status, create branch, switch to ..."],
         LoopEffect.listening⟩ := by
  have h3' : ¬ pyStrip text ∈ exit_words := by simpa using h3
  simp [loop_iteration, h0, h1, h2, h3', h4, unknown_plan]

theorem unknown_text_executes_nothing_witness :
    parse_git_command "hello there" = ["Unknown command"]
    ∧ loop_iteration ⟨0, fun _ => (0, ""), 0, "main", fun _ => (0, ""), false, false⟩
        "hello there"
      = ⟨["hello there"], [],
         ["Unknown Git command. Try: commit, push, pull, status, create branch, switch to ..."],
         LoopEffect.listening⟩ :=
  ⟨by decide,
   unknown_text_executes_nothing ⟨0, fun _ => (0, ""), 0, "main", fun _ => (0, ""), false, false⟩
     "hello there" (by decide) (by decide) (by decide) (by decide) (by decide)⟩

/-- C2 is false on the code: plan steps are free-form strings, not
argument vectors — the quoted message `$(touch pwned)` is interpolated
verbatim into the commit step, `execute_git_sequence` hands that step to
`run_cmd` as a string, and `run_cmd` runs string commands through a
shell (`shell=True`), where `$(...)` inside double quotes is command
substitution. -/
theorem quoted_message_reaches_shell :
    parse_git_command "commit message \"$(touch pwned)\""
        = ["git add -A", "git commit -m \"$(touch pwned)\""]
    ∧ (execute_git_sequence 0 (fun _ => (0, ""))
          (parse_git_command "commit message \"$(touch pwned)\"")).executed
        = [Cmd.sh "git add -A", Cmd.sh "git commit -m \"$(touch pwned)\""]
    ∧ run_cmd_shell (Cmd.sh "git commit -m \"$(touch pwned)\"") = true := by
  decide

theorem map_toLower_fixed (l : List Char) (hl : ∀ c ∈ l, c.toLower = c) :
    l.map Char.toLower = l :=
  (List.map_congr_left hl).trans l.map_id

theorem closeQuote_clean (rest : List Char) (hq : ∀ c ∈ rest, isQuote c = false)
    (hn : ∀ c ∈ rest, ¬ c = '\n') (acc : List Char) :
    closeQuote acc (rest ++ ['"']) = some (acc.reverse ++ rest, []) := by
  induction rest generalizing acc with
  | nil => simp [closeQuote, isQuote]
  | cons c cs ih =>
    have hqc : isQuote c = false := hq c (by simp)
    have hnc : (c == '\n') = false := by
      have := hn c (by simp); simpa using this
    have ihc := ih (fun x hx => hq x (by simp [hx])) (fun x hx => hn x (by simp [hx])) (c :: acc)
    simp [closeQuote, hqc, hnc, ihc, List.append_assoc]

theorem commitQuoteAt_quoted (m0 : Char) (mrest : List Char)
    (hq : ∀ c ∈ m0 :: mrest, isQuote c = false)
    (hn : ∀ c ∈ m0 :: mrest, ¬ c = '\n') :
    commitQuoteAt ("commit message \"".data ++ (m0 :: mrest) ++ ['"'])
      = some (m0 :: mrest) := by
  have hm0 : (m0 == '\n') = false := by
    have := hn m0 (by simp); simpa using this
  have hpre1 : ("commit ".data).isPrefixOf
      ("commit message \"".data ++ (m0 :: mrest) ++ ['"']) = true := rfl
  have hdrop7 : ("commit message \"".data ++ (m0 :: mrest) ++ ['"']).drop 7
      = "message \"".data ++ (m0 :: mrest) ++ ['"'] := rfl
  have hpre2 : ("message ".data).isPrefixOf
      ("message \"".data ++ (m0 :: mrest) ++ ['"']) = true := rfl
  have hdrop8 : ("message \"".data ++ (m0 :: mrest) ++ ['"']).drop 8
      = '"' :: ((m0 :: mrest) ++ ['"']) := rfl
  have hcap : quoteCapture ('"' :: ((m0 :: mrest) ++ ['"'])) = some (m0 :: mrest) := by
    have h1 : quoteCapture ('"' :: ((m0 :: mrest) ++ ['"']))
        = if m0 == '\n' then none
          else (closeQuote [m0] (mrest ++ ['"'])).map Prod.fst := rfl
    rw [h1, if_neg (by simp [hm0]),
      closeQuote_clean mrest (fun x hx => hq x (by simp [hx]))
        (fun x hx => hn x (by simp [hx])) [m0]]
    simp
  simp only [commitQuoteAt, hpre1, hdrop7, hpre2, hdrop8, hcap, if_true]

theorem commitQuoteSearch_quoted (m0 : Char) (mrest : List Char)
    (hq : ∀ c ∈ m0 :: mrest, isQuote c = false)
    (hn : ∀ c ∈ m0 :: mrest, ¬ c = '\n') :
    commitQuoteSearch ("commit message \"".data ++ (m0 :: mrest) ++ ['"'])
      = some (m0 :: mrest) := by
  have hX : ("commit message \"".data ++ (m0 :: mrest) ++ ['"'])
      = 'c' :: ("ommit message \"".data ++ (m0 :: mrest) ++ ['"']) := rfl
  have hAt : commitQuoteAt ('c' :: ("ommit message \"".data ++ (m0 :: mrest) ++ ['"']))
      = some (m0 :: mrest) := commitQuoteAt_quoted m0 mrest hq hn
  rw [commitQuoteSearch, hX]
  simp only [reSearch, hAt]

/-- C2 (amended): plan steps are free-form strings interpreted by a
shell, and a quoted commit message is embedded verbatim into the commit
step — for every non-empty quote-free single-line message, the parsed
plan's commit step is the shell string `git commit -m "<message>"`
containing the message character-for-character, and every step the
executor hands to `run_cmd` is dispatched with shell interpretation
(`shell=True`), so shell-expansion syntax inside the message reaches a
shell. -/
theorem quoted_message_embedded_verbatim (msg : List Char) (exec : String → Int × String)
    (hne : msg ≠ [])
    (hq : ∀ c ∈ msg, isQuote c = false)
    (hn : ∀ c ∈ msg, ¬ c = '\n')
    (hl : ∀ c ∈ msg, c.toLower = c) :
    parse_git_command (("commit message \"".data ++ msg ++ ['"']).asString)
        = ["git add -A", ("git commit -m \"".data ++ msg ++ ['"']).asString]
    ∧ ∀ c ∈ (execute_git_sequence 0 exec
          (parse_git_command (("commit message \"".data ++ msg ++ ['"']).asString))).executed,
        run_cmd_shell c = true := by
  obtain ⟨m0, mrest, rfl⟩ : ∃ a l, msg = a :: l := by
    cases msg with
    | nil => exact absurd rfl hne
    | cons a l => exact ⟨a, l, rfl⟩
  refine ⟨?_, fun c hc => execute_steps_shell 0 exec _ c hc⟩
  have hmap : ((("commit message \"".data ++ (m0 :: mrest) ++ ['"']).asString).data).map
        Char.toLower
      = "commit message \"".data ++ (m0 :: mrest) ++ ['"'] := by
    have hlit1 : ("commit message \"".data).map Char.toLower = "commit message \"".data := by
      decide
    have hlit2 : (['"'] : List Char).map Char.toLower = ['"'] := by decide
    show (("commit message \"".data ++ (m0 :: mrest) ++ ['"']).map Char.toLower) = _
    rw [List.map_append, List.map_append, hlit1, hlit2, map_toLower_fixed _ hl]
  unfold parse_git_command
  rw [hmap]
  unfold parse_git_core
  rw [commitQuoteSearch_quoted m0 mrest hq hn]
  rfl

theorem quoted_message_embedded_verbatim_witness :
    ("$(date)".data ≠ ([] : List Char))
    ∧ parse_git_command (("commit message \"".data ++ "$(date)".data ++ ['"']).asString)
        = ["git add -A", ("git commit -m \"".data ++ "$(date)".data ++ ['"']).asString] :=
  ⟨by decide,
   (quoted_message_embedded_verbatim ("$(date)".data) (fun _ => (0, ""))
      (by decide) (by decide) (by decide) (by decide)).1⟩

theorem auth_gate_passes (env : LoopEnv) (cmds : List String)
    (h : env.authEnabled = true ∧ sensitive_plan cmds = true → env.authOk = true) :
    (env.authEnabled && sensitive_plan cmds && !env.authOk) = false := by
  cases ha : env.authEnabled with
  | false => simp
  | true =>
    cases hs : sensitive_plan cmds with
    | false => simp [hs]
    | true => simp [h ⟨ha, hs⟩]

/-- C6 (confirmed): when a plan containing a push step completes fully
successfully, the loop issues exactly one additional push — the executed
commands are the plan's steps (as shell strings) followed by the single
argument vector `["git", "push", "origin", branch]`, where `branch` is
`current_branch` applied to the branch query made at that execution
moment.  The plan itself is `parse_git_command text`, a function of the
transcript alone, so a branch rename between planning and execution is
honored: the pushed target depends only on the execution-time query. -/
theorem guaranteed_push_at_execution_time (env : LoopEnv) (text : String)
    (h0 : ¬ text = "")
    (h1 : hasSubStr text "switch to offline" = false)
    (h2 : hasSubStr text "switch to online" = false)
    (h3 : exit_words.contains (pyStrip text) = false)
    (h4 : unknown_plan (parse_git_command text) = false)
    (h5 : env.authEnabled = true → env.authOk = true)
    (h6 : (parse_git_command text).any (fun c => hasSubStr c "push") = true)
    (h7 : (execute_git_sequence env.repoRc env.exec (parse_git_command text)).result
        = ExecResult.success) :
    (loop_iteration env text).executed
        = (parse_git_command text).map Cmd.sh
          ++ [Cmd.argv ["git", "push", "origin",
                current_branch env.branchRc env.branchOut]]
    ∧ (loop_iteration env text).effect = LoopEffect.listening := by
  have h3' : ¬ pyStrip text ∈ exit_words := by simpa using h3
  have hauth := auth_gate_passes env (parse_git_command text) (fun hp => h5 hp.1)
  constructor <;>
    simp [loop_iteration, h0, h1, h2, h3', h4, hauth, h6, h7,
      execute_success_executed env.repoRc env.exec (parse_git_command text) h7,
      push_current_branch_executed]

theorem guaranteed_push_at_execution_time_witness :
    (parse_git_command "push").any (fun c => hasSubStr c "push") = true
    ∧ (loop_iteration ⟨0, fun _ => (0, ""), 0, "feature-x\n", fun _ => (0, ""), false, false⟩
          "push").executed
        = (parse_git_command "push").map Cmd.sh
          ++ [Cmd.argv ["git", "push", "origin", current_branch 0 "feature-x\n"]] :=
  ⟨by decide,
   (guaranteed_push_at_execution_time
      ⟨0, fun _ => (0, ""), 0, "feature-x\n", fun _ => (0, ""), false, false⟩ "push"
      (by decide) (by decide) (by decide) (by decide) (by decide) (by decide) (by decide)
      (by decide)).1⟩

/-- C9 (confirmed): in every loop iteration that parses a non-Unknown
command (and passes authentication when it is required), the log line
`EXECUTED: <step> | <step> | ...` is appended regardless of the
execution outcome — the environment (repository check, step results) is
arbitrary, covering a failing step and a non-repository directory. -/
theorem executed_line_always_logged (env : LoopEnv) (text : String)
    (h0 : ¬ text = "")
    (h1 : hasSubStr text "switch to offline" = false)
    (h2 : hasSubStr text "switch to online" = false)
    (h3 : exit_words.contains (pyStrip text) = false)
    (h4 : unknown_plan (parse_git_command text) = false)
    (h5 : env.authEnabled = true ∧ sensitive_plan (parse_git_command text) = true
        → env.authOk = true) :
    ("EXECUTED: " ++ joinSep " | " (parse_git_command text))
      ∈ (loop_iteration env text).logs := by
  have h3' : ¬ pyStrip text ∈ exit_words := by simpa using h3
  have hauth := auth_gate_passes env (parse_git_command text) h5
  simp [loop_iteration, h0, h1, h2, h3', h4, hauth, List.mem_append]

theorem executed_line_always_logged_witness :
    unknown_plan (parse_git_command "status") = false
    ∧ ("EXECUTED: " ++ joinSep " | " (parse_git_command "status"))
        ∈ (loop_iteration ⟨1, fun _ => (0, ""), 0, "main", fun _ => (0, ""), false, false⟩
            "status").logs :=
  ⟨by decide,
   executed_line_always_logged ⟨1, fun _ => (0, ""), 0, "main", fun _ => (0, ""), false, false⟩
     "status" (by decide) (by decide) (by decide) (by decide) (by decide) (by decide)⟩
